import Mathlib

/-!
Shallow embedding of the arena-buffer layer (`src/memory.rs`) of the
NoProto serialization format: a growable byte buffer with a bump
allocator, a configurable address width, width-aware pointer sizing,
unchecked address patching and bounds-checked fixed-size reads.

Bytes are modelled as natural numbers (values below 256 where the code
produces them); the interior-mutable cell of the source becomes explicit
state passing; Rust panics (unchecked index accesses) are modelled as
the `Except.error` branch of the embedding.
-/

namespace NoProto

/-- Address-width mode of a buffer: `U32` is Wide (4-byte addresses),
`U16` is Narrow (2-byte addresses).  From `enum NP_Size`. -/
inductive NP_Size where
  | U32
  | U16
deriving DecidableEq, Repr

/-- Modelled from the spec: the pointer-kind enum `NP_PtrKinds` lives in
`src/pointer.rs`, which is not part of the provided sources; its variants
and fields follow section 3 of the spec (an address field `addr`, map
`key`, chain `next`, and item index `i`), all numeric fields as `Nat`. -/
inductive NP_PtrKinds where
  | None
  | Standard (addr : Nat)
  | MapItem (addr : Nat) (key : Nat) (next : Nat)
  | TableItem (addr : Nat) (i : Nat) (next : Nat)
  | ListItem (addr : Nat) (i : Nat) (next : Nat)
deriving DecidableEq, Repr

/-- Modelled from the spec: the crate-level format-version tag written at
byte 0 of the header (`PROTOCOL_VERSION` is declared outside
`src/memory.rs`).  No claim depends on its concrete value. -/
def PROTOCOL_VERSION : Nat := 1

/-- `const MAX_SIZE_LARGE: usize = core::u32::MAX as usize` -/
def MAX_SIZE_LARGE : Nat := 2 ^ 32 - 1

/-- `const MAX_SIZE_SMALL: usize = core::u16::MAX as usize` -/
def MAX_SIZE_SMALL : Nat := 2 ^ 16 - 1

/-- `struct NP_Memory`: the raw byte storage plus the address-width mode.
The `UnsafeCell<Vec<u8>>` of the source becomes an explicit field that the
operations thread through. -/
structure NP_Memory where
  bytes : List Nat
  size : NP_Size
deriving DecidableEq, Repr

/-- Big-endian bytes of a value truncated to `u16`:
`(val as u16).to_be_bytes()`. -/
def u16_to_be_bytes (v : Nat) : List Nat :=
  [v / 2 ^ 8 % 256, v % 256]

/-- Big-endian bytes of a value truncated to `u32`:
`val.to_be_bytes()` for `val : u32` (for a general `Nat` this computes the
encoding of `v % 2^32`). -/
def u32_to_be_bytes (v : Nat) : List Nat :=
  [v / 2 ^ 24 % 256, v / 2 ^ 16 % 256, v / 2 ^ 8 % 256, v % 256]

/-- `NP_Memory::existing`: wrap an existing byte sequence, recovering the
width mode from byte 1 (`0` means `U32`, anything else `U16`).  The source
indexes `bytes[1]` with no length check; an input shorter than 2 bytes
panics, modelled as `none`. -/
def existing (bytes : List Nat) : Option NP_Memory :=
  match bytes[1]? with
  | Option.none => Option.none
  | some size =>
      some { bytes := bytes
             size := if size = 0 then NP_Size.U32 else NP_Size.U16 }

/-- `NP_Memory::addr_size`: the maximum addressable offset for the
configured width. -/
def addr_size (mem : NP_Memory) : Nat :=
  match mem.size with
  | NP_Size.U32 => MAX_SIZE_LARGE
  | NP_Size.U16 => MAX_SIZE_SMALL

/-- `NP_Memory::new`: a fresh buffer.  Writes the protocol-version byte,
the width tag (0 for `U32`, 1 for `U16`) and a zeroed root pointer of the
configured width.  The capacity hint only pre-reserves `Vec` capacity in
the source and does not affect the contents. -/
def new (capacity : Option Nat) (size : NP_Size) : NP_Memory :=
  let _use_size := match capacity with
    | some x => x
    | Option.none => 1024
  let new_bytes := match size with
    | NP_Size.U32 => [PROTOCOL_VERSION, 0] ++ u32_to_be_bytes 0
    | NP_Size.U16 => [PROTOCOL_VERSION, 1] ++ u16_to_be_bytes 0
  { bytes := new_bytes, size := size }

/-- `NP_Memory::malloc`: bump allocation.  Returns the old length as the
address (cast `as u32`) and appends the bytes, or fails without mutating
when `location + bytes.len() >= max_sze`.  The pair carries the resulting
state so that the no-mutation-on-failure behaviour is observable. -/
def malloc (mem : NP_Memory) (bytes : List Nat) :
    Except String Nat × NP_Memory :=
  let location := mem.bytes.length
  let max_sze := match mem.size with
    | NP_Size.U16 => MAX_SIZE_SMALL
    | NP_Size.U32 => MAX_SIZE_LARGE
  if max_sze ≤ location + bytes.length then
    (Except.error "Not enough space available in buffer!", mem)
  else
    (Except.ok (location % 2 ^ 32), { mem with bytes := mem.bytes ++ bytes })

/-- `NP_Memory::ptr_size`: encoded byte footprint of a pointer kind for
the configured width. -/
def ptr_size (mem : NP_Memory) (ptr : NP_PtrKinds) : Nat :=
  match mem.size with
  | NP_Size.U32 =>
      match ptr with
      | NP_PtrKinds.None => 0
      | NP_PtrKinds.Standard _ => 4
      | NP_PtrKinds.MapItem _ _ _ => 12
      | NP_PtrKinds.TableItem _ _ _ => 9
      | NP_PtrKinds.ListItem _ _ _ => 10
  | NP_Size.U16 =>
      match ptr with
      | NP_PtrKinds.None => 0
      | NP_PtrKinds.Standard _ => 2
      | NP_PtrKinds.MapItem _ _ _ => 6
      | NP_PtrKinds.TableItem _ _ _ => 5
      | NP_PtrKinds.ListItem _ _ _ => 6

/-- `NP_Memory::blank_ptr_bytes`: the loop pushing `0` exactly
`ptr_size` times. -/
def blank_ptr_bytes (mem : NP_Memory) (ptr : NP_PtrKinds) : List Nat :=
  List.replicate (ptr_size mem ptr) 0

/-- The `addr_bytes` local of `set_value_address`: the big-endian
encoding of `val` truncated to the configured width. -/
def addr_bytes (size : NP_Size) (val : Nat) : List Nat :=
  match size with
  | NP_Size.U32 => u32_to_be_bytes val
  | NP_Size.U16 => u16_to_be_bytes val

/-- The write loop of `set_value_address`: store `data[x]` at index
`(address + x as u32) as usize` for each `x`.  The index is computed in
u32 arithmetic, so it wraps modulo `2^32` — this model follows the
release-build (wrapping) semantics of that addition; a debug build would
instead panic at the overflowing `+`.  The source indexes
`self_bytes[...]` with no bounds check, so an out-of-range index is a
panic, modelled as `none`. -/
def writeBytes (bs : List Nat) (a : Nat) (data : List Nat) :
    Option (List Nat) :=
  match data with
  | [] => some bs
  | d :: rest =>
      if a % 2 ^ 32 < bs.length then
        writeBytes (bs.set (a % 2 ^ 32) d) (a + 1) rest
      else Option.none

/-- `NP_Memory::set_value_address`: overwrite the width-sized address
field at byte offset `address` with the truncated big-endian encoding of
`val`, and return the input kind with its `addr` field replaced by `val`.
The unchecked indexed writes of the source surface as the error branch. -/
def set_value_address (mem : NP_Memory) (address : Nat) (val : Nat)
    (kind : NP_PtrKinds) : Except String (NP_Memory × NP_PtrKinds) :=
  match writeBytes mem.bytes address (addr_bytes mem.size val) with
  | Option.none => Except.error "index out of bounds"
  | some new_bytes =>
      Except.ok ({ mem with bytes := new_bytes },
        match kind with
        | NP_PtrKinds.None => NP_PtrKinds.None
        | NP_PtrKinds.Standard _ => NP_PtrKinds.Standard val
        | NP_PtrKinds.MapItem _ key next => NP_PtrKinds.MapItem val key next
        | NP_PtrKinds.TableItem _ i next => NP_PtrKinds.TableItem val i next
        | NP_PtrKinds.ListItem _ i next => NP_PtrKinds.ListItem val i next)

/-- `NP_Memory::get_1_byte`: returns `none` only for the null sentinel
`address == 0`; unlike the other getters it performs NO length check, so
an out-of-range address is an unchecked index access (a panic), modelled
as the error branch. -/
def get_1_byte (mem : NP_Memory) (address : Nat) :
    Except String (Option Nat) :=
  if address = 0 then Except.ok Option.none
  else
    match mem.bytes[address]? with
    | some b => Except.ok (some b)
    | Option.none => Except.error "index out of bounds"

/-- `NP_Memory::get_2_bytes`: `none` for the null sentinel or when
`storage.len() < address + 2`, otherwise the window `[address, address+2)`. -/
def get_2_bytes (mem : NP_Memory) (address : Nat) : Option (List Nat) :=
  if address = 0 then Option.none
  else if mem.bytes.length < address + 2 then Option.none
  else some ((mem.bytes.drop address).take 2)

/-- `NP_Memory::get_4_bytes`. -/
def get_4_bytes (mem : NP_Memory) (address : Nat) : Option (List Nat) :=
  if address = 0 then Option.none
  else if mem.bytes.length < address + 4 then Option.none
  else some ((mem.bytes.drop address).take 4)

/-- `NP_Memory::get_8_bytes`. -/
def get_8_bytes (mem : NP_Memory) (address : Nat) : Option (List Nat) :=
  if address = 0 then Option.none
  else if mem.bytes.length < address + 8 then Option.none
  else some ((mem.bytes.drop address).take 8)

/-- `NP_Memory::get_16_bytes`. -/
def get_16_bytes (mem : NP_Memory) (address : Nat) : Option (List Nat) :=
  if address = 0 then Option.none
  else if mem.bytes.length < address + 16 then Option.none
  else some ((mem.bytes.drop address).take 16)

/-- `NP_Memory::get_32_bytes`. -/
def get_32_bytes (mem : NP_Memory) (address : Nat) : Option (List Nat) :=
  if address = 0 then Option.none
  else if mem.bytes.length < address + 32 then Option.none
  else some ((mem.bytes.drop address).take 32)

/-- `NP_Memory::dump`: consume the buffer and return the raw storage. -/
def dump (mem : NP_Memory) : List Nat :=
  mem.bytes

/-- The address byte width of a mode, the `width` of the spec:
4 for Wide (`U32`), 2 for Narrow (`U16`). -/
def addr_width : NP_Size → Nat
  | NP_Size.U32 => 4
  | NP_Size.U16 => 2

/-- Run a sequence of `malloc` calls against a buffer, collecting the
addresses of the successful ones (a failed call contributes no address
and, per `malloc`, leaves the storage untouched). -/
def malloc_run (mem : NP_Memory) : List (List Nat) → NP_Memory × List Nat
  | [] => (mem, [])
  | b :: rest =>
      match malloc mem b with
      | (Except.ok a, mem2) =>
          ((malloc_run mem2 rest).1, a :: (malloc_run mem2 rest).2)
      | (Except.error _, mem2) => malloc_run mem2 rest

end NoProto

deriving instance DecidableEq for Except

namespace NoProto

theorem writeBytes_eq (d : List Nat) : ∀ (bs : List Nat) (a : Nat),
    a + d.length ≤ bs.length → a + d.length ≤ 2 ^ 32 →
    writeBytes bs a d = some (bs.take a ++ d ++ bs.drop (a + d.length)) := by
  induction d with
  | nil =>
      intro bs a _ _
      simp [writeBytes]
  | cons x rest ih =>
      intro bs a h hw
      simp only [List.length_cons] at h hw
      have ha : a < bs.length := by omega
      have hma : a % 2 ^ 32 = a := by omega
      rw [writeBytes, hma, if_pos ha,
        ih (bs.set a x) (a + 1) (by simp; omega) (by omega)]
      rw [List.set_eq_take_cons_drop x ha]
      have hta : (bs.take a).length = a := List.length_take_of_le (le_of_lt ha)
      have h1 : (bs.take a ++ x :: bs.drop (a + 1)).take (a + 1)
          = bs.take a ++ [x] := by
        rw [List.take_append_eq_append_take, hta,
          List.take_of_length_le (by rw [hta]; omega)]
        congr 1
        have h11 : a + 1 - a = 1 := by omega
        rw [h11]
        rfl
      have h2 : (bs.take a ++ x :: bs.drop (a + 1)).drop (a + 1 + rest.length)
          = bs.drop (a + (rest.length + 1)) := by
        rw [List.drop_append_eq_append_drop, hta,
          List.drop_eq_nil_of_le (by rw [hta]; omega)]
        have h21 : a + 1 + rest.length - a = rest.length + 1 := by omega
        rw [List.nil_append, h21, List.drop_succ_cons, List.drop_drop]
        congr 1
        omega
      rw [h1, h2]
      simp

theorem writeBytes_eq_none (d : List Nat) : ∀ (bs : List Nat) (a : Nat),
    d ≠ [] → a + d.length ≤ 2 ^ 32 → bs.length < a + d.length →
    writeBytes bs a d = Option.none := by
  induction d with
  | nil =>
      intro bs a hne _ _
      exact absurd rfl hne
  | cons x rest ih =>
      intro bs a _ hw h
      simp only [List.length_cons] at h hw
      have hma : a % 2 ^ 32 = a := by omega
      by_cases ha : a < bs.length
      · have hrest : rest ≠ [] := by
          intro he
          rw [he] at h
          simp at h
          omega
        rw [writeBytes, hma, if_pos ha]
        exact ih (bs.set a x) (a + 1) hrest (by omega) (by simp; omega)
      · rw [writeBytes, hma, if_neg ha]

theorem writeBytes_isSome_iff (d : List Nat) : ∀ (bs : List Nat) (a : Nat),
    (∃ r, writeBytes bs a d = some r)
      ↔ ∀ x < d.length, (a + x) % 2 ^ 32 < bs.length := by
  induction d with
  | nil =>
      intro bs a
      simp [writeBytes]
  | cons y rest ih =>
      intro bs a
      rw [writeBytes]
      by_cases h : a % 2 ^ 32 < bs.length
      · rw [if_pos h, ih (bs.set (a % 2 ^ 32) y) (a + 1)]
        simp only [List.length_set, List.length_cons]
        constructor
        · intro hall x hx
          rcases Nat.eq_zero_or_pos x with hx0 | hx1
          · rw [hx0, Nat.add_zero]
            exact h
          · have := hall (x - 1) (by omega)
            have he : a + 1 + (x - 1) = a + x := by omega
            rw [he] at this
            exact this
        · intro hall x hx
          have := hall (x + 1) (by omega)
          have he : a + (x + 1) = a + 1 + x := by omega
          rw [he] at this
          exact this
      · rw [if_neg h]
        constructor
        · rintro ⟨r, hr⟩
          cases hr
        · intro hall
          exact absurd (by simpa using hall 0 (by simp)) h

theorem addr_size_le : ∀ (mem : NP_Memory), addr_size mem ≤ 2 ^ 32 - 1 := by
  intro mem
  unfold addr_size
  cases mem.size <;> simp [MAX_SIZE_LARGE, MAX_SIZE_SMALL]

theorem malloc_spec (mem : NP_Memory) (b : List Nat) :
    malloc mem b =
      if addr_size mem ≤ mem.bytes.length + b.length then
        (Except.error "Not enough space available in buffer!", mem)
      else
        (Except.ok mem.bytes.length, { mem with bytes := mem.bytes ++ b }) := by
  have hle := addr_size_le mem
  obtain ⟨bs, sz⟩ := mem
  cases sz <;>
    · simp only [malloc, addr_size, MAX_SIZE_LARGE, MAX_SIZE_SMALL] at *
      split
      · rfl
      · rename_i hlt
        have : bs.length % 2 ^ 32 = bs.length := Nat.mod_eq_of_lt (by omega)
        rw [this]

theorem window_read (k : Nat) (l1 mid l2 : List Nat)
    (h1 : 1 ≤ l1.length) (hm : mid.length = k) :
    (if l1.length = 0 then Option.none
     else if (l1 ++ (mid ++ l2)).length < l1.length + k then Option.none
     else some (((l1 ++ (mid ++ l2)).drop l1.length).take k)) = some mid := by
  rw [if_neg (by omega), if_neg (by simp; omega), List.drop_left,
    List.take_append_eq_append_take, List.take_of_length_le (le_of_eq hm),
    hm, Nat.sub_self, List.take_zero, List.append_nil]

theorem get_1_byte_window (l1 l2 : List Nat) (x : Nat) (sz : NP_Size)
    (h1 : 1 ≤ l1.length) :
    get_1_byte { bytes := l1 ++ x :: l2, size := sz } l1.length
      = Except.ok (some x) := by
  unfold get_1_byte
  rw [if_neg (by omega)]
  have hx : (l1 ++ x :: l2)[l1.length]? = some x := by
    rw [List.getElem?_append_right (le_refl _)]
    simp
  rw [hx]

theorem get_2_bytes_window (l1 mid l2 : List Nat) (sz : NP_Size)
    (h1 : 1 ≤ l1.length) (hm : mid.length = 2) :
    get_2_bytes { bytes := l1 ++ (mid ++ l2), size := sz } l1.length
      = some mid := by
  unfold get_2_bytes
  exact window_read 2 l1 mid l2 h1 hm

theorem get_4_bytes_window (l1 mid l2 : List Nat) (sz : NP_Size)
    (h1 : 1 ≤ l1.length) (hm : mid.length = 4) :
    get_4_bytes { bytes := l1 ++ (mid ++ l2), size := sz } l1.length
      = some mid := by
  unfold get_4_bytes
  exact window_read 4 l1 mid l2 h1 hm

theorem get_8_bytes_window (l1 mid l2 : List Nat) (sz : NP_Size)
    (h1 : 1 ≤ l1.length) (hm : mid.length = 8) :
    get_8_bytes { bytes := l1 ++ (mid ++ l2), size := sz } l1.length
      = some mid := by
  unfold get_8_bytes
  exact window_read 8 l1 mid l2 h1 hm

theorem get_16_bytes_window (l1 mid l2 : List Nat) (sz : NP_Size)
    (h1 : 1 ≤ l1.length) (hm : mid.length = 16) :
    get_16_bytes { bytes := l1 ++ (mid ++ l2), size := sz } l1.length
      = some mid := by
  unfold get_16_bytes
  exact window_read 16 l1 mid l2 h1 hm

theorem get_32_bytes_window (l1 mid l2 : List Nat) (sz : NP_Size)
    (h1 : 1 ≤ l1.length) (hm : mid.length = 32) :
    get_32_bytes { bytes := l1 ++ (mid ++ l2), size := sz } l1.length
      = some mid := by
  unfold get_32_bytes
  exact window_read 32 l1 mid l2 h1 hm

theorem malloc_run_le (bs : List (List Nat)) : ∀ (mem : NP_Memory),
    ∀ a ∈ (malloc_run mem bs).2, mem.bytes.length ≤ a := by
  induction bs with
  | nil =>
      intro mem a ha
      simp [malloc_run] at ha
  | cons b rest ih =>
      intro mem a ha
      have hm := malloc_spec mem b
      by_cases hc : addr_size mem ≤ mem.bytes.length + b.length
      · rw [if_pos hc] at hm
        rw [malloc_run, hm] at ha
        exact ih mem a ha
      · rw [if_neg hc] at hm
        rw [malloc_run, hm] at ha
        simp only [List.mem_cons] at ha
        rcases ha with h | h
        · omega
        · have h2 := ih { mem with bytes := mem.bytes ++ b } a h
          simp only [List.length_append] at h2
          omega

theorem new_bytes (capacity : Option Nat) (size : NP_Size) :
    (new capacity size).bytes
      = [PROTOCOL_VERSION, if size = NP_Size.U32 then 0 else 1]
        ++ List.replicate (addr_width size) 0 := by
  cases size <;> rfl

theorem addr_bytes_length (size : NP_Size) (v : Nat) :
    (addr_bytes size v).length = addr_width size := by
  cases size <;> rfl

theorem addr_bytes_ne_nil (size : NP_Size) (v : Nat) :
    addr_bytes size v ≠ [] := by
  cases size <;> simp [addr_bytes, u16_to_be_bytes, u32_to_be_bytes]

theorem patch_read_u16 (mem : NP_Memory) (a v : Nat) (kind : NP_PtrKinds)
    (hsz : mem.size = NP_Size.U16) (h1 : 1 ≤ a)
    (h2 : a + 2 ≤ mem.bytes.length) (hnw : a + 2 ≤ 2 ^ 32) :
    ∃ p, set_value_address mem a v kind = Except.ok p
      ∧ get_2_bytes p.1 a = some (u16_to_be_bytes v)
      ∧ p.2 = (match kind with
          | NP_PtrKinds.None => NP_PtrKinds.None
          | NP_PtrKinds.Standard _ => NP_PtrKinds.Standard v
          | NP_PtrKinds.MapItem _ key next => NP_PtrKinds.MapItem v key next
          | NP_PtrKinds.TableItem _ i next => NP_PtrKinds.TableItem v i next
          | NP_PtrKinds.ListItem _ i next => NP_PtrKinds.ListItem v i next) := by
  have hta : (mem.bytes.take a).length = a :=
    List.length_take_of_le (by omega)
  have hw := writeBytes_eq (addr_bytes mem.size v) mem.bytes a
    (by rw [addr_bytes_length, hsz]; exact h2)
    (by rw [addr_bytes_length, hsz]; exact hnw)
  unfold set_value_address
  rw [hw]
  refine ⟨_, rfl, ?_, rfl⟩
  rw [hsz]
  show get_2_bytes
      { bytes := mem.bytes.take a ++ u16_to_be_bytes v ++ mem.bytes.drop (a + 2),
        size := NP_Size.U16 } a = some (u16_to_be_bytes v)
  rw [List.append_assoc]
  have hg := get_2_bytes_window (mem.bytes.take a) (u16_to_be_bytes v)
    (mem.bytes.drop (a + 2)) NP_Size.U16 (by rw [hta]; exact h1) rfl
  rw [hta] at hg
  exact hg

/-- C1: the spec claims all six fixed-size reads are bounds-checked and
return `none` out of range; `get_1_byte` however performs no length check,
so on a fresh Narrow buffer (storage length 4) the boundary read
`get_1_byte 4` is an unchecked out-of-range index access (a panic in the
source) rather than `none` — in contrast to `get_2_bytes`, which at the
analogous out-of-range address 3 does return `none` as claimed. -/
theorem C1_get_1_byte_unchecked_out_of_range :
    (new Option.none NP_Size.U16).bytes.length = 4
    ∧ get_1_byte (new Option.none NP_Size.U16) 4
        = Except.error "index out of bounds"
    ∧ get_1_byte (new Option.none NP_Size.U16) 4 ≠ Except.ok Option.none
    ∧ get_2_bytes (new Option.none NP_Size.U16) 3 = Option.none := by
  decide

/-- C2: `malloc` fails with the out-of-space error exactly when the
current storage length plus the length being written reaches or exceeds
the maximum addressable offset of the width (2^16-1 Narrow, 2^32-1 Wide);
on failure the buffer is unchanged, and on success the returned address is
the storage length before the call and the bytes are appended. -/
theorem C2_malloc_out_of_space_contract (mem : NP_Memory) (b : List Nat) :
    (addr_size mem = match mem.size with
      | NP_Size.U16 => 2 ^ 16 - 1
      | NP_Size.U32 => 2 ^ 32 - 1)
    ∧ ((malloc mem b).1 = Except.error "Not enough space available in buffer!"
        ↔ addr_size mem ≤ mem.bytes.length + b.length)
    ∧ (addr_size mem ≤ mem.bytes.length + b.length → (malloc mem b).2 = mem)
    ∧ (mem.bytes.length + b.length < addr_size mem →
        (malloc mem b).1 = Except.ok mem.bytes.length
          ∧ (malloc mem b).2.bytes = mem.bytes ++ b) := by
  refine ⟨?_, ?_⟩
  · unfold addr_size
    cases mem.size <;> rfl
  · rw [malloc_spec]
    by_cases hc : addr_size mem ≤ mem.bytes.length + b.length
    · rw [if_pos hc]
      exact ⟨⟨fun _ => hc, fun _ => rfl⟩, fun _ => rfl,
        fun h => absurd hc (by omega)⟩
    · rw [if_neg hc]
      exact ⟨⟨fun h => absurd h (by simp), fun h => absurd h hc⟩,
        fun h => absurd h hc, fun _ => ⟨rfl, rfl⟩⟩

theorem C2_malloc_out_of_space_contract_witness :
    (malloc (new Option.none NP_Size.U16) [7, 7]).1 = Except.ok 4 :=
  ((C2_malloc_out_of_space_contract
    (new Option.none NP_Size.U16) [7, 7]).2.2.2 (by decide)).1

/-- C3 counterexample: the claim quantifies over every buffer state, but
on a buffer whose storage is empty `malloc` succeeds with the sentinel
address 0, and the subsequent 1-byte read at that address yields the
absent result instead of the written byte. -/
theorem C3_empty_storage_counterexample :
    (malloc { bytes := [], size := NP_Size.U16 } [7]).1 = Except.ok 0
    ∧ get_1_byte (malloc { bytes := [], size := NP_Size.U16 } [7]).2 0
        = Except.ok Option.none
    ∧ get_1_byte (malloc { bytes := [], size := NP_Size.U16 } [7]).2 0
        ≠ Except.ok (some 7) := by
  decide

/-- C3 (amended): on every buffer whose storage is nonempty — true of
every buffer either constructor can produce — a successful `malloc` of a
byte sequence of one of the supported read sizes returns an address at
which the matching fixed-size read immediately yields exactly those
bytes. -/
theorem C3_alloc_read_roundtrip (mem : NP_Memory) (b : List Nat) (a : Nat)
    (h0 : 1 ≤ mem.bytes.length) (h : (malloc mem b).1 = Except.ok a) :
    (b.length = 1 → get_1_byte (malloc mem b).2 a = Except.ok b[0]?)
    ∧ (b.length = 2 → get_2_bytes (malloc mem b).2 a = some b)
    ∧ (b.length = 4 → get_4_bytes (malloc mem b).2 a = some b)
    ∧ (b.length = 8 → get_8_bytes (malloc mem b).2 a = some b)
    ∧ (b.length = 16 → get_16_bytes (malloc mem b).2 a = some b)
    ∧ (b.length = 32 → get_32_bytes (malloc mem b).2 a = some b) := by
  have hm := malloc_spec mem b
  by_cases hc : addr_size mem ≤ mem.bytes.length + b.length
  · rw [if_pos hc] at hm
    rw [hm] at h
    exact absurd h (by simp)
  · rw [if_neg hc] at hm
    rw [hm] at h ⊢
    have ha : a = mem.bytes.length := (Except.ok.inj h).symm
    subst ha
    refine ⟨?_, ?_, ?_, ?_, ?_, ?_⟩
    · intro hlen
      obtain ⟨x, hx⟩ := List.length_eq_one.mp hlen
      subst hx
      simpa using get_1_byte_window mem.bytes [] x mem.size h0
    · intro hlen
      simpa using get_2_bytes_window mem.bytes b [] mem.size h0 hlen
    · intro hlen
      simpa using get_4_bytes_window mem.bytes b [] mem.size h0 hlen
    · intro hlen
      simpa using get_8_bytes_window mem.bytes b [] mem.size h0 hlen
    · intro hlen
      simpa using get_16_bytes_window mem.bytes b [] mem.size h0 hlen
    · intro hlen
      simpa using get_32_bytes_window mem.bytes b [] mem.size h0 hlen

theorem C3_alloc_read_roundtrip_witness :
    get_2_bytes (malloc (new Option.none NP_Size.U16) [9, 8]).2 4
      = some [9, 8] :=
  (C3_alloc_read_roundtrip (new Option.none NP_Size.U16) [9, 8] 4
    (by decide) (by decide)).2.1 rfl

/-- C4 counterexample: offset 0 satisfies the claim's in-bounds condition
`at + width <= storage.len()` on a 2-byte Narrow buffer, and the patch
does write the encoding there, but the subsequent 2-byte read returns the
absent result (null sentinel) instead of the encoding the claim
promises. -/
theorem C4_offset_zero_counterexample :
    0 + addr_width NP_Size.U16
      ≤ ({ bytes := [5, 5], size := NP_Size.U16 } : NP_Memory).bytes.length
    ∧ set_value_address { bytes := [5, 5], size := NP_Size.U16 } 0 8
        (NP_PtrKinds.Standard 3)
      = Except.ok ({ bytes := [0, 8], size := NP_Size.U16 },
          NP_PtrKinds.Standard 8)
    ∧ u16_to_be_bytes 8 = [0, 8]
    ∧ get_2_bytes { bytes := [0, 8], size := NP_Size.U16 } 0
        = Option.none := by
  decide

/-- C4 (amended): for every nonzero in-bounds offset (`1 <= at` and
`at + width <= storage.len()`) whose u32 index computation does not wrap
(`at + width <= 2^32`; the source computes `address + x` in u32, so
beyond that the writes land at wrapped low indices instead of the
window), `set_value_address` writes exactly the big-endian
width-truncated encoding of the value at `[at, at+width)`, leaves every
other byte unchanged (the storage is the untouched prefix, then the
encoding, then the untouched suffix, with total length preserved), a
subsequent width-sized read at `at` yields that encoding, and the
returned kind is the input variant with only `addr` replaced; at the
offset 0 the read-back clause fails because 0 is the null sentinel. -/
theorem C4_patch_address_spec (mem : NP_Memory) (a v : Nat)
    (kind : NP_PtrKinds) (h1 : 1 ≤ a)
    (h2 : a + addr_width mem.size ≤ mem.bytes.length)
    (hnw : a + addr_width mem.size ≤ 2 ^ 32) :
    ∃ p, set_value_address mem a v kind = Except.ok p
      ∧ p.1.bytes = mem.bytes.take a ++ addr_bytes mem.size v
          ++ mem.bytes.drop (a + addr_width mem.size)
      ∧ p.1.size = mem.size
      ∧ p.1.bytes.length = mem.bytes.length
      ∧ (mem.size = NP_Size.U16 → get_2_bytes p.1 a = some (u16_to_be_bytes v))
      ∧ (mem.size = NP_Size.U32 → get_4_bytes p.1 a = some (u32_to_be_bytes v))
      ∧ (kind = NP_PtrKinds.None → p.2 = NP_PtrKinds.None)
      ∧ (∀ a0, kind = NP_PtrKinds.Standard a0 → p.2 = NP_PtrKinds.Standard v)
      ∧ (∀ a0 key next, kind = NP_PtrKinds.MapItem a0 key next →
          p.2 = NP_PtrKinds.MapItem v key next)
      ∧ (∀ a0 i next, kind = NP_PtrKinds.TableItem a0 i next →
          p.2 = NP_PtrKinds.TableItem v i next)
      ∧ (∀ a0 i next, kind = NP_PtrKinds.ListItem a0 i next →
          p.2 = NP_PtrKinds.ListItem v i next) := by
  have hta : (mem.bytes.take a).length = a :=
    List.length_take_of_le (by omega)
  have hw := writeBytes_eq (addr_bytes mem.size v) mem.bytes a
    (by rw [addr_bytes_length]; exact h2)
    (by rw [addr_bytes_length]; exact hnw)
  unfold set_value_address
  rw [hw]
  refine ⟨_, rfl, by rw [addr_bytes_length], rfl, ?_, ?_, ?_, ?_, ?_, ?_,
    ?_, ?_⟩
  · simp only [List.length_append, List.length_drop, addr_bytes_length, hta]
    omega
  · intro hsz
    rw [hsz]
    show get_2_bytes
        { bytes := mem.bytes.take a ++ u16_to_be_bytes v
            ++ mem.bytes.drop (a + 2), size := NP_Size.U16 } a
      = some (u16_to_be_bytes v)
    rw [List.append_assoc]
    have hg := get_2_bytes_window (mem.bytes.take a) (u16_to_be_bytes v)
      (mem.bytes.drop (a + 2)) NP_Size.U16 (by rw [hta]; exact h1) rfl
    rw [hta] at hg
    exact hg
  · intro hsz
    rw [hsz]
    show get_4_bytes
        { bytes := mem.bytes.take a ++ u32_to_be_bytes v
            ++ mem.bytes.drop (a + 4), size := NP_Size.U32 } a
      = some (u32_to_be_bytes v)
    rw [List.append_assoc]
    have hg := get_4_bytes_window (mem.bytes.take a) (u32_to_be_bytes v)
      (mem.bytes.drop (a + 4)) NP_Size.U32 (by rw [hta]; exact h1) rfl
    rw [hta] at hg
    exact hg
  · intro hk; rw [hk]
  · intro a0 hk; rw [hk]
  · intro a0 key next hk; rw [hk]
  · intro a0 i next hk; rw [hk]
  · intro a0 i next hk; rw [hk]

theorem C4_patch_address_spec_witness :
    ∃ p, set_value_address { bytes := [9, 9, 9, 9], size := NP_Size.U16 }
        2 5 (NP_PtrKinds.ListItem 1 2 3) = Except.ok p
      ∧ get_2_bytes p.1 2 = some [0, 5] := by
  obtain ⟨p, hp1, _, _, _, hp5, _⟩ := C4_patch_address_spec
    { bytes := [9, 9, 9, 9], size := NP_Size.U16 } 2 5
    (NP_PtrKinds.ListItem 1 2 3) (by decide) (by decide) (by decide)
  exact ⟨p, hp1, (hp5 rfl).trans rfl⟩

/-- C5: for both widths the pointer footprints are 0 for None, width for
Standard, 3*width for MapItem, 2*width+1 for TableItem and 2*width+2 for
ListItem (0/4/12/9/10 Wide, 0/2/6/5/6 Narrow), and `blank_ptr_bytes`
yields an all-zero sequence of exactly that footprint. -/
theorem C5_ptr_size_footprint_table (mem : NP_Memory) (kind : NP_PtrKinds) :
    ptr_size mem kind = (match kind with
      | NP_PtrKinds.None => 0
      | NP_PtrKinds.Standard _ => addr_width mem.size
      | NP_PtrKinds.MapItem _ _ _ => 3 * addr_width mem.size
      | NP_PtrKinds.TableItem _ _ _ => 2 * addr_width mem.size + 1
      | NP_PtrKinds.ListItem _ _ _ => 2 * addr_width mem.size + 2)
    ∧ (blank_ptr_bytes mem kind).length = ptr_size mem kind
    ∧ (blank_ptr_bytes mem kind).all (fun x => x == 0) = true := by
  obtain ⟨bs, sz⟩ := mem
  cases sz <;> cases kind <;>
    simp [ptr_size, blank_ptr_bytes, addr_width, List.all_eq_true]

/-- C6: a fresh buffer, immediately exported, has length exactly
`2 + width`, carries the width tag at byte 1 (0 Wide, 1 Narrow), has an
all-zero root pointer at offsets `[2, 2+width)`, and re-wrapping the
export with `existing` recovers the same width. -/
theorem C6_fresh_dump_header_roundtrip (capacity : Option Nat)
    (size : NP_Size) :
    (dump (new capacity size)).length = 2 + addr_width size
    ∧ (dump (new capacity size))[1]?
        = some (if size = NP_Size.U32 then 0 else 1)
    ∧ ((dump (new capacity size)).drop 2).take (addr_width size)
        = List.replicate (addr_width size) 0
    ∧ ∃ m, existing (dump (new capacity size)) = some m ∧ m.size = size := by
  cases size <;>
    simp [dump, new, existing, addr_width, u16_to_be_bytes, u32_to_be_bytes,
      PROTOCOL_VERSION, List.replicate]

/-- C7: starting from a fresh buffer, every address a sequence of
`malloc` calls successfully returns is at least the header size
`2 + width`; in particular no allocation ever starts at the sentinel
offset 0. -/
theorem C7_alloc_addr_above_header (capacity : Option Nat) (size : NP_Size)
    (bs : List (List Nat)) :
    ∀ a ∈ (malloc_run (new capacity size) bs).2,
      2 + addr_width size ≤ a ∧ a ≠ 0 := by
  intro a ha
  have h := malloc_run_le bs (new capacity size) a ha
  have hlen : (new capacity size).bytes.length = 2 + addr_width size := by
    cases size <;> rfl
  rw [hlen] at h
  exact ⟨h, by omega⟩

theorem C7_alloc_addr_above_header_witness :
    2 + addr_width NP_Size.U16 ≤ 4 ∧ (4 : Nat) ≠ 0 :=
  C7_alloc_addr_above_header Option.none NP_Size.U16 [[7, 7]] 4 (by decide)

theorem set_value_address_ok_iff (mem : NP_Memory) (a v : Nat)
    (kind : NP_PtrKinds) :
    (∃ p, set_value_address mem a v kind = Except.ok p)
      ↔ ∃ r, writeBytes mem.bytes a (addr_bytes mem.size v) = some r := by
  unfold set_value_address
  rcases hr : writeBytes mem.bytes a (addr_bytes mem.size v) with _ | r
  · simp [hr]
  · simp [hr]

/-- C8 counterexample: the claim says every input violating the caller
contract `at + width <= storage.len()` makes an indexed write access an
out-of-range position; but at address `2^32 - 1` on a Narrow buffer of
exactly `2^32` bytes the contract is violated (`at + 2 > len`), yet the
u32 index computation wraps the second write to index 0 and the patch
completes with no out-of-range access at all. -/
theorem C8_wrap_counterexample :
    ({ bytes := List.replicate (2 ^ 32) 0,
        size := NP_Size.U16 } : NP_Memory).bytes.length
      < 2 ^ 32 - 1 + addr_width NP_Size.U16
    ∧ ∃ p, set_value_address
        { bytes := List.replicate (2 ^ 32) 0, size := NP_Size.U16 }
        (2 ^ 32 - 1) 5 NP_PtrKinds.None = Except.ok p := by
  constructor
  · show (List.replicate (2 ^ 32) (0 : Nat)).length
      < 2 ^ 32 - 1 + addr_width NP_Size.U16
    simp only [List.length_replicate, addr_width]
    omega
  · apply (set_value_address_ok_iff _ _ _ _).mpr
    apply (writeBytes_isSome_iff _ _ _).mpr
    intro x hx
    rw [addr_bytes_length] at hx
    simp only [List.length_replicate]
    simp only [addr_width] at hx
    omega

/-- C8 (amended): `set_value_address` performs no bounds check of its
own: it completes exactly when each u32-computed index
`(at + x) mod 2^32`, `x < width`, lands inside the storage.  Under the
caller contract `at + width <= storage.len()` (with `at` in u32 range)
it always completes, and for contract-violating inputs whose index
computation does not wrap (`at + width <= 2^32`) an indexed write does
access an out-of-range position; when the computation wraps past `2^32`
on a large enough buffer, however, the patch completes through wrapped
low indices instead of erring. -/
theorem C8_patch_no_bounds_check (mem : NP_Memory) (a v : Nat)
    (kind : NP_PtrKinds) :
    ((∃ p, set_value_address mem a v kind = Except.ok p)
      ↔ ∀ x < addr_width mem.size, (a + x) % 2 ^ 32 < mem.bytes.length)
    ∧ (a < 2 ^ 32 → a + addr_width mem.size ≤ mem.bytes.length →
        ∃ p, set_value_address mem a v kind = Except.ok p)
    ∧ (a + addr_width mem.size ≤ 2 ^ 32 →
        mem.bytes.length < a + addr_width mem.size →
        set_value_address mem a v kind
          = Except.error "index out of bounds") := by
  have hw := writeBytes_isSome_iff (addr_bytes mem.size v) mem.bytes a
  rw [addr_bytes_length] at hw
  have hiff := (set_value_address_ok_iff mem a v kind).trans hw
  have hw4 : addr_width mem.size ≤ 4 := by
    cases mem.size <;> simp [addr_width]
  refine ⟨hiff, ?_, ?_⟩
  · intro ha hc
    apply hiff.mpr
    intro x hx
    omega
  · intro hnw hc
    unfold set_value_address
    rw [writeBytes_eq_none _ _ _ (addr_bytes_ne_nil mem.size v)
      (by rw [addr_bytes_length]; exact hnw)
      (by rw [addr_bytes_length]; omega)]

/-- C9: on a fresh Narrow buffer, allocating a 4-byte region returns
address 4 (after the 2+2-byte header), a second 10-byte allocation
returns address 8, and after patching address 4 with value 8 and kind
Standard, the 2-byte read at offset 4 yields exactly `[0x00, 0x08]` and
the returned kind is Standard with address 8. -/
theorem C9_narrow_scenario (b1 b2 : List Nat) (a0 : Nat)
    (h1 : b1.length = 4) (h2 : b2.length = 10) :
    (malloc (new Option.none NP_Size.U16) b1).1 = Except.ok 4
    ∧ (malloc (malloc (new Option.none NP_Size.U16) b1).2 b2).1
        = Except.ok 8
    ∧ ∃ p, set_value_address
          (malloc (malloc (new Option.none NP_Size.U16) b1).2 b2).2 4 8
          (NP_PtrKinds.Standard a0) = Except.ok p
        ∧ get_2_bytes p.1 4 = some [0, 8]
        ∧ p.2 = NP_PtrKinds.Standard 8 := by
  have e0 : new Option.none NP_Size.U16
      = { bytes := [1, 1, 0, 0], size := NP_Size.U16 } := rfl
  have hm1 : malloc { bytes := [1, 1, 0, 0], size := NP_Size.U16 } b1
      = (Except.ok 4, { bytes := [1, 1, 0, 0] ++ b1, size := NP_Size.U16 }) := by
    simp [malloc, MAX_SIZE_SMALL, h1]
  have hm2 : malloc { bytes := [1, 1, 0, 0] ++ b1, size := NP_Size.U16 } b2
      = (Except.ok 8,
          { bytes := ([1, 1, 0, 0] ++ b1) ++ b2, size := NP_Size.U16 }) := by
    simp [malloc, MAX_SIZE_SMALL, h1, h2]
  rw [e0, hm1, hm2]
  refine ⟨rfl, rfl, ?_⟩
  have hp := patch_read_u16
    { bytes := ([1, 1, 0, 0] ++ b1) ++ b2, size := NP_Size.U16 } 4 8
    (NP_PtrKinds.Standard a0) rfl (by omega) (by simp [h1, h2]) (by omega)
  obtain ⟨p, hp1, hp2, hp3⟩ := hp
  exact ⟨p, hp1, by rw [hp2]; rfl, hp3⟩

theorem C9_narrow_scenario_witness :
    (malloc (new Option.none NP_Size.U16) [6, 6, 6, 6]).1 = Except.ok 4
    ∧ (malloc (malloc (new Option.none NP_Size.U16) [6, 6, 6, 6]).2
        [7, 7, 7, 7, 7, 7, 7, 7, 7, 7]).1 = Except.ok 8
    ∧ ∃ p, set_value_address
          (malloc (malloc (new Option.none NP_Size.U16) [6, 6, 6, 6]).2
            [7, 7, 7, 7, 7, 7, 7, 7, 7, 7]).2 4 8
          (NP_PtrKinds.Standard 0) = Except.ok p
        ∧ get_2_bytes p.1 4 = some [0, 8]
        ∧ p.2 = NP_PtrKinds.Standard 8 :=
  C9_narrow_scenario [6, 6, 6, 6] [7, 7, 7, 7, 7, 7, 7, 7, 7, 7] 0 rfl rfl

/-- C10: `existing` reads byte 1 of its input with no length validation:
wrapping succeeds exactly when the input holds at least 2 bytes, and any
shorter input (including the empty sequence) makes the index access
out of range, so the operation is undefined there. -/
theorem C10_existing_length_precondition (bs : List Nat) :
    (∃ m, existing bs = some m) ↔ 2 ≤ bs.length := by
  unfold existing
  rcases bs with _ | ⟨x, _ | ⟨y, rest⟩⟩ <;> simp

end NoProto
